import Mathlib

/-!
Verification development for the jhoffmann/bookmark-manager repository.

The Go sources are shallowly embedded:
* the bookmark entity (internal/bookmark, internal/models) becomes the
  structure Bookmark; machine time is modelled by a Nat tick where 0 plays
  the role of Go's zero time;
* the embedded database accessed through GORM is modelled as an explicit
  state DB (a list of rows plus an auto-increment counter and a clock);
  the GORM calls used by the code (Create, Save, Delete, First, Find with
  the WHERE clauses appearing in the sources) are modelled black-box with
  their documented soft-delete semantics, as the spec treats persistence:
  a soft delete marks DeletedAt, reads exclude marked rows, and the
  LIKE pattern with percent signs on both sides is substring containment;
* the service layer (internal/bookmark bookmark.go) and the add command
  (cmd add.go runAdd) become pure functions on DB;
* the terminal UI model (internal/tui/list, internal/tui/confirm) becomes
  a state machine over an abstract key alphabet; the bubbles list cursor
  is modelled by a clamped index.
-/

namespace BookmarkManager

/-- Bookmark mirrors the Go struct Bookmark: ID, Folder, DateCreated,
Category and the GORM soft-delete column DeletedAt (none = live row).
CreatedAt and UpdatedAt are dropped: no code path reads them. -/
structure Bookmark where
  id : Nat
  folder : String
  dateCreated : Nat
  category : String
  deletedAt : Option Nat
deriving Repr, DecidableEq

/-- DB models the embedded SQLite database behind GORM: the bookmark rows,
the auto-increment counter for fresh primary keys, and the current time. -/
structure DB where
  rows : List Bookmark
  nextId : Nat
  now : Nat
deriving Repr, DecidableEq

/-- leadsWith hay p decides whether the character list p is an initial
segment of hay (helper for the LIKE model). -/
def leadsWith : List Char → List Char → Bool
  | _, [] => true
  | [], _ :: _ => false
  | a :: t, b :: p => a == b && leadsWith t p

/-- containsSub hay needle decides whether needle occurs as a contiguous
run inside hay; it models the SQL predicate folder LIKE percent-needle-percent
that GORM emits in SearchByFolder. -/
def containsSub : List Char → List Char → Bool
  | [], needle => needle == []
  | a :: t, needle => leadsWith (a :: t) needle || containsSub t needle

/-- BeforeCreate mirrors the GORM hook Bookmark.BeforeCreate: it stamps
DateCreated with the current time when it is still the zero time, and it
touches nothing else (in particular not Category). -/
def Bookmark.BeforeCreate (b : Bookmark) (now : Nat) : Bookmark :=
  if b.dateCreated = 0 then { b with dateCreated := now } else b

/-- gormCreate models the GORM Create call: the BeforeCreate hook runs,
a zero primary key is replaced by a fresh one, and the row is appended. -/
def gormCreate (b : Bookmark) (db : DB) : Bookmark × DB :=
  let b1 := b.BeforeCreate db.now
  let b2 := if b1.id = 0 then { b1 with id := db.nextId } else b1
  (b2, { db with rows := db.rows ++ [b2], nextId := db.nextId + 1 })

/-- gormSaveExisting models the GORM Save call on a row that already has a
primary key: every stored row with that key is overwritten; when none
exists GORM inserts the row instead. -/
def gormSaveExisting (b : Bookmark) (db : DB) : DB :=
  if db.rows.any (fun r => r.id == b.id) then
    { db with rows := db.rows.map (fun r => if r.id = b.id then b else r) }
  else
    { db with rows := db.rows ++ [b] }

/-- gormDelete models the GORM Delete call on an entity with a DeletedAt
column: a soft delete that stamps DeletedAt on every live row with the
entity's primary key and removes nothing physically. -/
def gormDelete (b : Bookmark) (db : DB) : DB :=
  { db with rows := db.rows.map (fun r =>
      if r.id = b.id ∧ r.deletedAt = none then { r with deletedAt := some db.now } else r) }

/-- live db is the set of rows GORM reads see: soft-deleted rows excluded. -/
def live (db : DB) : List Bookmark :=
  db.rows.filter (fun r => r.deletedAt == none)

/-- dateDesc is the ORDER BY date_created DESC ordering used by the find
queries in internal/bookmark bookmark.go. -/
def dateDesc : Bookmark → Bookmark → Prop := fun a b => b.dateCreated ≤ a.dateCreated

instance : DecidableRel dateDesc := fun a b => Nat.decLe b.dateCreated a.dateCreated

/-- validate mirrors Bookmark.validate: only an empty folder path is
rejected; the category is not inspected at all. -/
def Bookmark.validate (b : Bookmark) : Option String :=
  if b.folder = "" then some "folder path is required" else none

/-- Save mirrors Bookmark.Save: validation first (any failure leaves the
database untouched), then Create for a zero ID and Save for a nonzero one.
The returned bookmark carries the mutations GORM applies in place. -/
def Bookmark.Save (b : Bookmark) (db : DB) : Except String Bookmark × DB :=
  match b.validate with
  | some msg => (.error ("validation failed: " ++ msg), db)
  | none =>
    if b.id = 0 then
      let (nb, db1) := gormCreate b db
      (.ok nb, db1)
    else
      (.ok b, gormSaveExisting b db)

/-- Delete mirrors Bookmark.Delete: a zero ID is refused, otherwise the
row is soft-deleted through GORM. -/
def Bookmark.Delete (b : Bookmark) (db : DB) : Except String Unit × DB :=
  if b.id = 0 then (.error "cannot delete bookmark: ID is required", db)
  else (.ok (), gormDelete b db)

/-- GetByID mirrors GetByID: First on the primary key over live rows,
with the not-found error message of the source. -/
def GetByID (id : Nat) (db : DB) : Except String Bookmark :=
  match (live db).find? (fun r => r.id == id) with
  | some r => .ok r
  | none => .error ("bookmark with ID " ++ toString id ++ " not found")

/-- listBookmarks mirrors List (the Go name collides with Lean's List):
live rows ordered by date_created DESC, then OFFSET applied only when
offset is positive and LIMIT only when limit is positive. -/
def listBookmarks (db : DB) (limit offset : Int) : List Bookmark :=
  let base := List.insertionSort dateDesc (live db)
  let base1 := if 0 < offset then base.drop offset.toNat else base
  if 0 < limit then base1.take limit.toNat else base1

/-- SearchByFolder mirrors SearchByFolder: live rows whose folder matches
LIKE percent-folderPath-percent, ordered by date_created DESC. -/
def SearchByFolder (folderPath : String) (db : DB) : List Bookmark :=
  List.insertionSort dateDesc
    ((live db).filter (fun r => containsSub r.folder.toList folderPath.toList))

/-- SearchByCategory mirrors SearchByCategory: live rows whose category
equals the argument, ordered by date_created DESC. -/
def SearchByCategory (category : String) (db : DB) : List Bookmark :=
  List.insertionSort dateDesc ((live db).filter (fun r => r.category == category))

/-- AddResult is the observable outcome of the add command: a warning that
the bookmark already exists, a success with the saved bookmark, or a save
failure. -/
inductive AddResult where
  | alreadyExists (b : Bookmark)
  | added (b : Bookmark)
  | saveFailed (msg : String)
deriving Repr, DecidableEq

/-- argCategory mirrors the category choice in runAdd: the first argument
when one is present and nonempty, otherwise the empty category. -/
def argCategory : Option String → String
  | some a => if a ≠ "" then a else ""
  | none => ""

/-- runAdd mirrors cmd add.go runAdd after the working directory has been
resolved to absPath: search by folder, return early on an exact match,
otherwise build a bookmark with zero ID and empty DateCreated and save it. -/
def runAdd (db : DB) (absPath : String) (arg : Option String) : DB × AddResult :=
  let category := argCategory arg
  let existing := SearchByFolder absPath db
  match existing.find? (fun e => e.folder == absPath) with
  | some e => (db, .alreadyExists e)
  | none =>
    let b : Bookmark := { id := 0, folder := absPath, dateCreated := 0,
                          category := category, deletedAt := none }
    let (res, db1) := b.Save db
    match res with
    | .ok nb => (db1, .added nb)
    | .error msg => (db1, .saveFailed msg)

/-! Supporting lemmas about the storage model. -/

/-- Characterization of the initial-segment test. -/
lemma leadsWith_iff (p hay : List Char) :
    leadsWith hay p = true ↔ ∃ rest, hay = p ++ rest := by
  induction p generalizing hay with
  | nil => simp [leadsWith]
  | cons b p ih =>
    cases hay with
    | nil => simp [leadsWith]
    | cons a t =>
      simp only [leadsWith, Bool.and_eq_true, beq_iff_eq, ih, List.cons_append,
        List.cons.injEq]
      constructor
      · rintro ⟨rfl, rest, rfl⟩
        exact ⟨rest, rfl, rfl⟩
      · rintro ⟨rest, rfl, rfl⟩
        exact ⟨rfl, rest, rfl⟩

/-- Characterization of the LIKE model: containment as a contiguous run. -/
lemma containsSub_iff (hay needle : List Char) :
    containsSub hay needle = true ↔ ∃ pre post, hay = pre ++ needle ++ post := by
  induction hay with
  | nil =>
    simp only [containsSub, beq_iff_eq]
    constructor
    · rintro rfl
      exact ⟨[], [], rfl⟩
    · rintro ⟨pre, post, h⟩
      rcases List.append_eq_nil.mp h.symm with ⟨h1, h2⟩
      rcases List.append_eq_nil.mp h1 with ⟨_, h3⟩
      exact h3
  | cons a t ih =>
    simp only [containsSub, Bool.or_eq_true, leadsWith_iff, ih]
    constructor
    · rintro (⟨rest, h⟩ | ⟨pre, post, h⟩)
      · exact ⟨[], rest, by simp [h]⟩
      · exact ⟨a :: pre, post, by simp [h]⟩
    · rintro ⟨pre, post, h⟩
      cases pre with
      | nil =>
        left
        exact ⟨post, by simpa using h⟩
      | cons a1 pre1 =>
        right
        rcases List.cons.injEq a t a1 (pre1 ++ needle ++ post) ▸ h with ⟨_, h2⟩
        exact ⟨pre1, post, h2⟩

/-- Membership in the live view of the database. -/
lemma mem_live (db : DB) (r : Bookmark) :
    r ∈ live db ↔ r ∈ db.rows ∧ r.deletedAt = none := by
  simp [live, List.mem_filter]

/-- Membership is unchanged by the date ordering of query results. -/
lemma mem_sortDate (l : List Bookmark) (r : Bookmark) :
    r ∈ List.insertionSort dateDesc l ↔ r ∈ l :=
  (List.perm_insertionSort dateDesc l).mem_iff

/-- Membership in a folder search, phrased through the live view. -/
lemma mem_searchByFolder (db : DB) (s : String) (r : Bookmark) :
    r ∈ SearchByFolder s db ↔
      r ∈ db.rows ∧ r.deletedAt = none ∧ containsSub r.folder.toList s.toList = true := by
  simp only [SearchByFolder, mem_sortDate, List.mem_filter, mem_live]
  tauto

/-- Membership in a category search implies membership in the live view. -/
lemma mem_searchByCategory_live (db : DB) (c : String) (r : Bookmark) :
    r ∈ SearchByCategory c db → r ∈ live db := by
  intro hr
  simp only [SearchByCategory, mem_sortDate, List.mem_filter] at hr
  exact hr.1

/-- A full listing (no limit, no offset) contains exactly the live rows. -/
lemma mem_listBookmarks_zero (db : DB) (r : Bookmark) :
    r ∈ listBookmarks db 0 0 ↔ r ∈ db.rows ∧ r.deletedAt = none := by
  simp [listBookmarks, mem_sortDate, mem_live]

/-- Every string contains itself. -/
lemma self_containsSub (s : String) : containsSub s.toList s.toList = true :=
  (containsSub_iff _ _).mpr ⟨[], [], by simp⟩

/-- After a soft delete no live row carries the deleted primary key. -/
lemma live_gormDelete_id (db : DB) (b : Bookmark) :
    ∀ r ∈ live (gormDelete b db), r.id ≠ b.id := by
  intro r hr
  rcases (mem_live _ _).mp hr with ⟨hmem, hnone⟩
  simp only [gormDelete, List.mem_map] at hmem
  rcases hmem with ⟨r0, hr0, heq⟩
  by_cases hc : r0.id = b.id ∧ r0.deletedAt = none
  · rw [if_pos hc] at heq
    rw [← heq] at hnone
    simp at hnone
  · rw [if_neg hc] at heq
    subst heq
    intro hidEq
    exact hc ⟨hidEq, hnone⟩

/-- The Go condition on the add argument collapses to getD with default
empty string. -/
lemma argCategory_getD (arg : Option String) : argCategory arg = arg.getD "" := by
  cases arg with
  | none => rfl
  | some a => by_cases h : a = "" <;> simp [argCategory, h]

/-! Claim theorems over the storage layer. -/

/-- C3: Save rejects a bookmark exactly when its folder path is empty, the
rejection leaves the database untouched, and validation accepts every
category string (the validator never inspects the category). -/
theorem save_validation_iff_empty_folder (b : Bookmark) (db : DB) :
    ((∃ msg, (b.Save db).1 = .error msg) ↔ b.folder = "") ∧
    (b.folder = "" → (b.Save db).2 = db) ∧
    (∀ id folder dc cat da,
      Bookmark.validate ⟨id, folder, dc, cat, da⟩ = none ↔ folder ≠ "") := by
  refine ⟨⟨?_, ?_⟩, ?_, ?_⟩
  · rintro ⟨msg, hmsg⟩
    by_contra hne
    simp only [Bookmark.Save, Bookmark.validate, if_neg hne] at hmsg
    by_cases h0 : b.id = 0 <;> simp [h0, gormCreate] at hmsg
  · intro h
    exact ⟨"validation failed: folder path is required",
      by simp [Bookmark.Save, Bookmark.validate, h]⟩
  · intro h
    simp [Bookmark.Save, Bookmark.validate, h]
  · intro id folder dc cat da
    simp [Bookmark.validate]

/-- Witness for C3 at a concrete bookmark with empty folder. -/
theorem save_validation_iff_empty_folder_witness :
    ∃ msg, ((⟨0, "", 0, "somecat", none⟩ : Bookmark).Save ⟨[], 1, 1⟩).1 = .error msg :=
  (save_validation_iff_empty_folder ⟨0, "", 0, "somecat", none⟩ ⟨[], 1, 1⟩).1.mpr rfl

/-- C6: SearchByFolder returns exactly the non-deleted rows whose folder
path contains the search string as a contiguous substring. -/
theorem searchByFolder_substring (db : DB) (s : String) (b : Bookmark) :
    b ∈ SearchByFolder s db ↔
      b ∈ db.rows ∧ b.deletedAt = none ∧
        ∃ pre post, b.folder.toList = pre ++ s.toList ++ post := by
  simp only [SearchByFolder, mem_sortDate, List.mem_filter, mem_live,
    containsSub_iff]
  tauto

/-- C10: List truncates only on positive limit and positive offset, and a
call with non-positive limit and offset returns exactly the non-deleted
rows. -/
theorem list_limit_offset (db : DB) (limit offset : Int) :
    (limit ≤ 0 → offset ≤ 0 →
      ∀ b, b ∈ listBookmarks db limit offset ↔ b ∈ db.rows ∧ b.deletedAt = none) ∧
    listBookmarks db limit offset =
      (if 0 < limit then
        (if 0 < offset then (listBookmarks db 0 0).drop offset.toNat
         else listBookmarks db 0 0).take limit.toNat
       else
        (if 0 < offset then (listBookmarks db 0 0).drop offset.toNat
         else listBookmarks db 0 0)) := by
  constructor
  · intro hl ho b
    have hl' : ¬(0 : Int) < limit := by omega
    have ho' : ¬(0 : Int) < offset := by omega
    simp [listBookmarks, hl', ho', mem_sortDate, mem_live]
  · have h00 : listBookmarks db 0 0 = List.insertionSort dateDesc (live db) := by
      simp [listBookmarks]
    rw [h00]
    simp only [listBookmarks]

/-- Witness for C10: a concrete call with limit 0 and offset 0 returns
exactly the live rows. -/
theorem list_limit_offset_witness :
    ∀ b, b ∈ listBookmarks ⟨[⟨1, "/a", 5, "c", none⟩, ⟨2, "/b", 6, "", some 3⟩], 3, 9⟩ 0 0 ↔
      b ∈ [(⟨1, "/a", 5, "c", none⟩ : Bookmark), ⟨2, "/b", 6, "", some 3⟩] ∧
        b.deletedAt = none :=
  (list_limit_offset ⟨[⟨1, "/a", 5, "c", none⟩, ⟨2, "/b", 6, "", some 3⟩], 3, 9⟩ 0 0).1
    le_rfl le_rfl

/-- C1: deleting a stored bookmark with nonzero ID succeeds, GetByID then
reports not-found, listing and both searches no longer return a row with
that ID, and the record stays in storage, merely stamped with DeletedAt. -/
theorem delete_soft_semantics (db : DB) (b : Bookmark) (hb : b ∈ db.rows)
    (hlive : b.deletedAt = none) (hid : b.id ≠ 0) :
    (b.Delete db).1 = .ok () ∧
    GetByID b.id (b.Delete db).2 =
      .error ("bookmark with ID " ++ toString b.id ++ " not found") ∧
    (∀ r ∈ listBookmarks (b.Delete db).2 0 0, r.id ≠ b.id) ∧
    (∀ s r, r ∈ SearchByFolder s (b.Delete db).2 → r.id ≠ b.id) ∧
    (∀ c r, r ∈ SearchByCategory c (b.Delete db).2 → r.id ≠ b.id) ∧
    { b with deletedAt := some db.now } ∈ (b.Delete db).2.rows ∧
    (b.Delete db).2.rows.length = db.rows.length := by
  have hD : b.Delete db = (.ok (), gormDelete b db) := by
    simp [Bookmark.Delete, hid]
  rw [hD]
  refine ⟨rfl, ?_, ?_, ?_, ?_, ?_, ?_⟩
  · have hnone : (live (gormDelete b db)).find? (fun r => r.id == b.id) = none := by
      rw [List.find?_eq_none]
      intro x hx
      simpa using live_gormDelete_id db b x hx
    simp [GetByID, hnone]
  · intro r hr
    exact live_gormDelete_id db b r
      ((mem_live _ _).mpr ((mem_listBookmarks_zero _ _).mp hr))
  · intro s r hr
    rcases (mem_searchByFolder _ s r).mp hr with ⟨h1, h2, _⟩
    exact live_gormDelete_id db b r ((mem_live _ _).mpr ⟨h1, h2⟩)
  · intro c r hr
    exact live_gormDelete_id db b r (mem_searchByCategory_live _ c r hr)
  · simp only [gormDelete]
    refine List.mem_map.mpr ⟨b, hb, ?_⟩
    rw [if_pos ⟨rfl, hlive⟩]
  · simp [gormDelete]

/-- Witness for C1 at a one-row database. -/
theorem delete_soft_semantics_witness :
    ((⟨1, "/a", 5, "c", none⟩ : Bookmark).Delete ⟨[⟨1, "/a", 5, "c", none⟩], 2, 9⟩).1 = .ok () ∧
    GetByID 1 ((⟨1, "/a", 5, "c", none⟩ : Bookmark).Delete ⟨[⟨1, "/a", 5, "c", none⟩], 2, 9⟩).2 =
      .error ("bookmark with ID " ++ toString (1 : Nat) ++ " not found") := by
  have h := delete_soft_semantics ⟨[⟨1, "/a", 5, "c", none⟩], 2, 9⟩ ⟨1, "/a", 5, "c", none⟩
    (by simp) rfl (by decide)
  exact ⟨h.1, h.2.1⟩

/-- C2: the add command with resolved working directory absPath is
idempotent on an exact live path match (no new record, the existing one is
reported) and otherwise appends exactly one bookmark with that folder and
the argument category (empty when absent). -/
theorem runAdd_dedup_insert (db : DB) (absPath : String) (arg : Option String)
    (hne : absPath ≠ "") :
    ((∃ r ∈ db.rows, r.deletedAt = none ∧ r.folder = absPath) →
      ∃ e, runAdd db absPath arg = (db, .alreadyExists e) ∧
        e.folder = absPath ∧ e ∈ db.rows ∧ e.deletedAt = none) ∧
    ((¬ ∃ r ∈ db.rows, r.deletedAt = none ∧ r.folder = absPath) →
      ∃ nb, runAdd db absPath arg =
          ({ db with rows := db.rows ++ [nb], nextId := db.nextId + 1 }, .added nb) ∧
        nb.folder = absPath ∧ nb.category = arg.getD "") := by
  constructor
  · rintro ⟨r, hr, hrd, hrf⟩
    have hrs : r ∈ SearchByFolder absPath db := by
      rw [mem_searchByFolder]
      exact ⟨hr, hrd, by rw [hrf]; exact self_containsSub absPath⟩
    rcases hfind : (SearchByFolder absPath db).find? (fun e => e.folder == absPath) with _ | e
    · exfalso
      rw [List.find?_eq_none] at hfind
      exact hfind r hrs (by simp [hrf])
    · have he1 : e.folder = absPath := by simpa using List.find?_some hfind
      have he2 := List.mem_of_find?_eq_some hfind
      rw [mem_searchByFolder] at he2
      refine ⟨e, ?_, he1, he2.1, he2.2.1⟩
      simp [runAdd, hfind]
  · intro h
    have hfind : (SearchByFolder absPath db).find? (fun e => e.folder == absPath) = none := by
      rw [List.find?_eq_none]
      intro e he
      rw [mem_searchByFolder] at he
      simp only [beq_iff_eq]
      intro hef
      exact h ⟨e, he.1, he.2.1, hef⟩
    refine ⟨⟨db.nextId, absPath, db.now, argCategory arg, none⟩, ?_, rfl, ?_⟩
    · simp [runAdd, hfind, Bookmark.Save, Bookmark.validate, hne, gormCreate,
        Bookmark.BeforeCreate]
    · exact argCategory_getD arg

/-- Witness for C2: adding a fresh path to an empty database. -/
theorem runAdd_dedup_insert_witness :
    ∃ nb, runAdd ⟨[], 1, 7⟩ "/w" none =
        ((⟨([] : List Bookmark) ++ [nb], 1 + 1, 7⟩ : DB), .added nb) ∧
      nb.folder = "/w" ∧ nb.category = (none : Option String).getD "" :=
  (runAdd_dedup_insert ⟨[], 1, 7⟩ "/w" none (by decide)).2 (by simp)

/-- C4: neither the before-create hook nor the save path substitutes a
category: saving a fresh bookmark with empty category stores it and reads
it back with the category still empty. -/
theorem empty_category_preserved (db : DB) (folder : String)
    (hwf : ∀ r ∈ db.rows, r.id < db.nextId) (hf : folder ≠ "") :
    (∀ b now, (Bookmark.BeforeCreate b now).category = b.category) ∧
    ∃ nb db1,
      Bookmark.Save ⟨0, folder, 0, "", none⟩ db = (.ok nb, db1) ∧
      nb.category = "" ∧ nb ∈ db1.rows ∧ GetByID nb.id db1 = .ok nb := by
  constructor
  · intro b now
    simp only [Bookmark.BeforeCreate]
    split <;> rfl
  · refine ⟨⟨db.nextId, folder, db.now, "", none⟩,
      ⟨db.rows ++ [⟨db.nextId, folder, db.now, "", none⟩], db.nextId + 1, db.now⟩,
      ?_, rfl, by simp, ?_⟩
    · simp [Bookmark.Save, Bookmark.validate, hf, gormCreate, Bookmark.BeforeCreate]
    · have hfind : (live (⟨db.rows ++ [⟨db.nextId, folder, db.now, "", none⟩], db.nextId + 1, db.now⟩ : DB)).find? (fun r => r.id == db.nextId) =
          some ⟨db.nextId, folder, db.now, "", none⟩ := by
        simp only [live, List.filter_append]
        rw [List.find?_append]
        have h1 : (db.rows.filter (fun r => r.deletedAt == none)).find?
            (fun r => r.id == db.nextId) = none := by
          rw [List.find?_eq_none]
          intro x hx
          have := hwf x (List.mem_filter.mp hx).1
          simp only [beq_iff_eq]
          omega
        rw [h1]
        simp
      simp [GetByID, hfind]

/-- Witness for C4 on an empty database. -/
theorem empty_category_preserved_witness :
    ∃ nb db1,
      Bookmark.Save ⟨0, "/f", 0, "", none⟩ ⟨[], 1, 4⟩ = (.ok nb, db1) ∧
      nb.category = "" ∧ nb ∈ db1.rows ∧ GetByID nb.id db1 = .ok nb :=
  (empty_category_preserved ⟨[], 1, 4⟩ "/f" (by simp) (by decide)).2

/-- Witness for C6: a live row whose folder contains the search string. -/
theorem searchByFolder_substring_witness :
    (⟨1, "/home/u", 5, "c", none⟩ : Bookmark) ∈
      SearchByFolder "home" ⟨[⟨1, "/home/u", 5, "c", none⟩], 2, 9⟩ :=
  (searchByFolder_substring ⟨[⟨1, "/home/u", 5, "c", none⟩], 2, 9⟩ "home"
      ⟨1, "/home/u", 5, "c", none⟩).mpr
    ⟨by simp, rfl, "/".toList, "/u".toList, by decide⟩

/-! Terminal UI embedding (internal/tui/list and internal/tui/confirm).
Keys are the abstract alphabet the Update functions dispatch on; the
bubbles list cursor is a clamped index. -/

/-- Key is the key alphabet of the TUI update loop: only the keys the
source dispatches on are distinguished, everything else is keyOther. -/
inductive Key where
  | enter | esc | q | n | y | up | down
  | tab | shiftTab | x | d | slash | ctrlU | o | keyOther
deriving Repr, DecidableEq

/-- Confirm.Model mirrors the confirm package model: a two-item yes/no
list (index 0 = No, index 1 = Yes), the bookmark under confirmation, and
the visible / result / chosen flags. -/
structure ConfirmModel where
  selected : Nat
  bookmark : Option Bookmark
  visible : Bool
  result : Bool
  chosen : Bool
deriving Repr, DecidableEq

/-- ConfirmModel.new mirrors confirm.New: hidden, nothing chosen, cursor
on the first item (No). -/
def ConfirmModel.new : ConfirmModel :=
  { selected := 0, bookmark := none, visible := false, result := false, chosen := false }

/-- ConfirmModel.show mirrors confirm.Model.Show: the dialog becomes
visible for the given bookmark, the prior choice is reset, and the cursor
is put on item 0, the No choice. -/
def ConfirmModel.show (m : ConfirmModel) (b : Bookmark) : ConfirmModel :=
  { m with bookmark := some b, visible := true, chosen := false,
           result := false, selected := 0 }

/-- ConfirmModel.update mirrors confirm.Model.Update: enter resolves with
the selected item's value (item 1 is Yes), esc and the q and n keys resolve
negatively, the y key resolves affirmatively, and other keys fall through
to the two-item list, modelled as clamped cursor movement. -/
def ConfirmModel.update (m : ConfirmModel) (k : Key) : ConfirmModel :=
  if !m.visible then m
  else
    match k with
    | .enter => { m with result := m.selected == 1, chosen := true, visible := false }
    | .esc => { m with result := false, chosen := true, visible := false }
    | .q => { m with result := false, chosen := true, visible := false }
    | .n => { m with result := false, chosen := true, visible := false }
    | .y => { m with result := true, chosen := true, visible := false }
    | .up => { m with selected := m.selected - 1 }
    | .down => { m with selected := min (m.selected + 1) 1 }
    | _ => m

/-- TuiModel mirrors the list package Model, keeping the fields the
claims are about; the bubbles list cursor over the displayed bookmarks is
the index selectedIdx. -/
structure TuiModel where
  categories : List String
  activeCategory : String
  filterFocused : Bool
  filterValue : String
  bookmarks : List Bookmark
  allBookmarks : List Bookmark
  selectedIdx : Nat
  confirmDialog : ConfirmModel
  showingDialog : Bool
deriving Repr, DecidableEq

/-- findFirstIdx mirrors the Go loops in nextCategory and prevCategory,
which scan the slice and stop at the first index whose element matches. -/
def findFirstIdx (p : String → Bool) : List String → Option Nat
  | [] => none
  | a :: t => if p a then some 0 else (findFirstIdx p t).map (· + 1)

/-- nextCatStr is the category computation of Model.nextCategory: at the
first index holding the active category, step forward one position with
wraparound; with no match the active category is unchanged. -/
def nextCatStr (cats : List String) (active : String) : String :=
  match findFirstIdx (fun c => c == active) cats with
  | some i => cats.getD ((i + 1) % cats.length) active
  | none => active

/-- prevCatStr is the category computation of Model.prevCategory: step
backward one position with wraparound (the Go int expression i - 1 + len
equals i + len - 1 on Nat since i is a valid index). -/
def prevCatStr (cats : List String) (active : String) : String :=
  match findFirstIdx (fun c => c == active) cats with
  | some i => cats.getD ((i + cats.length - 1) % cats.length) active
  | none => active

/-- TuiModel.nextCategory mirrors Model.nextCategory, which only moves
the active category (and mirrors it into the list title). -/
def TuiModel.nextCategory (m : TuiModel) : TuiModel :=
  { m with activeCategory := nextCatStr m.categories m.activeCategory }

/-- TuiModel.prevCategory mirrors Model.prevCategory. -/
def TuiModel.prevCategory (m : TuiModel) : TuiModel :=
  { m with activeCategory := prevCatStr m.categories m.activeCategory }

/-- extractCategories mirrors the category-tab construction inside
Model.LoadBookmarks: a set seeded with All and default plus every loaded
category, emitted as All first and the remaining members sorted. -/
def extractCategories (bs : List Bookmark) : List String :=
  let catSet := ("All" :: "default" :: bs.map (fun b => b.category)).dedup
  "All" :: List.insertionSort (fun a b : String => a ≤ b) (catSet.filter (fun c => c != "All"))

/-- TuiModel.update mirrors Model.Update on key messages, returning the
next model and the bookmark of an issued deleteBookmark command, when one
is issued. The dialog branch is handled first, exactly as in the source;
the filter-focused branch and the main key dispatch issue no delete. -/
def TuiModel.update (m : TuiModel) (k : Key) : TuiModel × Option Bookmark :=
  if m.showingDialog then
    let c := m.confirmDialog.update k
    if c.chosen then
      let m1 := { m with confirmDialog := c, showingDialog := false }
      if c.result then
        match c.bookmark with
        | some b => (m1, some b)
        | none => (m1, none)
      else (m1, none)
    else ({ m with confirmDialog := c }, none)
  else if m.filterFocused then
    match k with
    | .esc => ({ m with filterFocused := false }, none)
    | .enter => ({ m with filterFocused := false }, none)
    | _ => (m, none)
  else
    match k with
    | .slash => ({ m with filterFocused := true }, none)
    | .ctrlU => ({ m with filterValue := "" }, none)
    | .tab => (m.nextCategory, none)
    | .shiftTab => (m.prevCategory, none)
    | .x =>
      match m.bookmarks[m.selectedIdx]? with
      | some b => ({ m with confirmDialog := m.confirmDialog.show b, showingDialog := true }, none)
      | none => (m, none)
    | .d =>
      match m.bookmarks[m.selectedIdx]? with
      | some b => ({ m with confirmDialog := m.confirmDialog.show b, showingDialog := true }, none)
      | none => (m, none)
    | .up => ({ m with selectedIdx := m.selectedIdx - 1 }, none)
    | .down => ({ m with selectedIdx := min (m.selectedIdx + 1) (m.bookmarks.length - 1) }, none)
    | _ => (m, none)

/-- driveStep runs one TUI step against the database: an issued
deleteBookmark command performs the soft delete, any other step leaves the
stored rows untouched (openFolder and rendering have no database effect). -/
def driveStep (s : TuiModel × DB) (k : Key) : TuiModel × DB :=
  match s.1.update k with
  | (m1, some b) => (m1, (b.Delete s.2).2)
  | (m1, none) => (m1, s.2)

/-- DialogInv is the well-formedness the list model maintains for the
confirmation dialog: whenever the dialog branch is active, the dialog is
visible, unresolved, and its cursor is on one of its two items. -/
def DialogInv (m : TuiModel) : Prop :=
  m.showingDialog = true →
    m.confirmDialog.visible = true ∧ m.confirmDialog.chosen = false ∧
      m.confirmDialog.selected ≤ 1

/-! Claim theorems over the terminal UI. -/

/-- C5 as stated is false: the LoadBookmarks category set is seeded with
the category default, so the default tab appears even when no loaded
bookmark carries it. With no bookmarks the tabs are All and default. -/
theorem category_tabs_counterexample :
    extractCategories [] = ["All", "default"] ∧
    "default" ∉ ([] : List Bookmark).map (fun b => b.category) := by
  constructor
  · rfl
  · simp

/-- C5 amended: the tab list is the pseudo-category All first, followed by
the distinct categories of the loaded bookmarks together with the
always-seeded category default, in sorted order and without duplicates. -/
theorem category_tabs_characterization (bs : List Bookmark) :
    (extractCategories bs).head? = some "All" ∧
    List.Sorted (fun a b : String => a ≤ b) (extractCategories bs).tail ∧
    (extractCategories bs).tail.Nodup ∧
    "All" ∉ (extractCategories bs).tail ∧
    ∀ c, c ∈ (extractCategories bs).tail ↔
      (c ≠ "All" ∧ (c = "default" ∨ c ∈ bs.map (fun b => b.category))) := by
  refine ⟨rfl, ?_, ?_, ?_, ?_⟩
  · exact List.sorted_insertionSort _ _
  · exact ((List.perm_insertionSort _ _).nodup_iff).mpr
      (List.Nodup.filter _ (List.nodup_dedup _))
  · intro hmem
    rw [show (extractCategories bs).tail =
        List.insertionSort (fun a b : String => a ≤ b)
          ((("All" :: "default" :: bs.map (fun b => b.category)).dedup).filter
            (fun c => c != "All")) from rfl,
      (List.perm_insertionSort _ _).mem_iff, List.mem_filter] at hmem
    simp at hmem
  · intro c
    rw [show (extractCategories bs).tail =
        List.insertionSort (fun a b : String => a ≤ b)
          ((("All" :: "default" :: bs.map (fun b => b.category)).dedup).filter
            (fun c => c != "All")) from rfl,
      (List.perm_insertionSort _ _).mem_iff, List.mem_filter, List.mem_dedup]
    simp only [List.mem_cons, bne_iff_ne, ne_eq]
    tauto

/-- In a duplicate-free list the first index of the j-th element is j. -/
lemma findFirstIdx_get (l : List String) (hl : l.Nodup) (j : Nat) (h : j < l.length) :
    findFirstIdx (fun c => c == l.get ⟨j, h⟩) l = some j := by
  induction l generalizing j with
  | nil => simp at h
  | cons a t ih =>
    cases j with
    | zero => simp [findFirstIdx]
    | succ j =>
      have h1 : j < t.length := by simpa using h
      have hna : a ∉ t := (List.nodup_cons.mp hl).1
      have hne2 : ¬(a = t.get ⟨j, h1⟩) := fun heq => hna (heq ▸ List.get_mem t j h1)
      have ih2 := ih (List.nodup_cons.mp hl).2 j h1
      have hget : (a :: t).get ⟨j + 1, h⟩ = t.get ⟨j, h1⟩ := rfl
      rw [hget]
      simp only [findFirstIdx]
      rw [if_neg (by simpa using hne2), ih2]
      rfl

/-- Stepping the cyclic successor and then the cyclic predecessor of an
index below n restores the index. -/
lemma next_prev_idx (n i : Nat) (hi : i < n) : ((i + 1) % n + n - 1) % n = i := by
  rcases Nat.lt_or_ge (i + 1) n with h | h
  · rw [Nat.mod_eq_of_lt h]
    have h2 : i + 1 + n - 1 = i + n := by omega
    rw [h2, Nat.add_mod_right]
    exact Nat.mod_eq_of_lt hi
  · have hn : i + 1 = n := by omega
    rw [hn, Nat.mod_self]
    have h2 : 0 + n - 1 = i := by omega
    rw [h2]
    exact Nat.mod_eq_of_lt hi

/-- Stepping the cyclic predecessor and then the cyclic successor of an
index below n restores the index. -/
lemma prev_next_idx (n i : Nat) (hi : i < n) : ((i + n - 1) % n + 1) % n = i := by
  rcases Nat.eq_zero_or_pos i with rfl | hpos
  · have h1 : 0 + n - 1 = n - 1 := by omega
    have hm : (n - 1) % n = n - 1 := Nat.mod_eq_of_lt (by omega)
    have h2 : n - 1 + 1 = n := by omega
    rw [h1, hm, h2, Nat.mod_self]
  · have h1 : i + n - 1 = (i - 1) + n := by omega
    have hm : (i - 1) % n = i - 1 := Nat.mod_eq_of_lt (by omega)
    have h2 : i - 1 + 1 = i := by omega
    rw [h1, Nat.add_mod_right, hm, h2]
    exact Nat.mod_eq_of_lt hi

/-- Forward step on a duplicate-free tab list: from position i the active
category becomes the element at the cyclic successor position. -/
lemma nextCatStr_get (cats : List String) (hnd : cats.Nodup) (i : Nat)
    (h : i < cats.length) :
    nextCatStr cats (cats.get ⟨i, h⟩) =
      cats.get ⟨(i + 1) % cats.length, Nat.mod_lt _ (by omega)⟩ := by
  have hf := findFirstIdx_get cats hnd i h
  simp only [nextCatStr, hf]
  rw [List.getD_eq_getElem _ _ (Nat.mod_lt _ (by omega))]
  simp [List.get_eq_getElem]

/-- Backward step on a duplicate-free tab list: from position i the active
category becomes the element at the cyclic predecessor position. -/
lemma prevCatStr_get (cats : List String) (hnd : cats.Nodup) (i : Nat)
    (h : i < cats.length) :
    prevCatStr cats (cats.get ⟨i, h⟩) =
      cats.get ⟨(i + cats.length - 1) % cats.length, Nat.mod_lt _ (by omega)⟩ := by
  have hf := findFirstIdx_get cats hnd i h
  simp only [prevCatStr, hf]
  rw [List.getD_eq_getElem _ _ (Nat.mod_lt _ (by omega))]
  simp [List.get_eq_getElem]

/-- C8 as stated is false: when the active category occurs exactly once
but another tab value is duplicated around it, stepping forward then
backward lands on the duplicated value, not back on the original. -/
def c8Model : TuiModel :=
  { categories := ["b", "x", "b"], activeCategory := "x", filterFocused := false,
    filterValue := "", bookmarks := [], allBookmarks := [], selectedIdx := 0,
    confirmDialog := ConfirmModel.new, showingDialog := false }

/-- C8 counterexample: the active category x occurs exactly once in the
tab list b, x, b, yet next-category followed by prev-category yields b. -/
theorem category_cycle_counterexample :
    c8Model.categories.count c8Model.activeCategory = 1 ∧
    ((c8Model.nextCategory).prevCategory).activeCategory ≠ c8Model.activeCategory := by
  constructor
  · rfl
  · decide

/-- C8 amended: on a duplicate-free tab list holding the active category,
next-category and prev-category are mutually inverse, and each single step
moves the active category one position with cyclic wraparound. -/
theorem category_cycle_inverse (m : TuiModel) (hnd : m.categories.Nodup)
    (hmem : m.activeCategory ∈ m.categories) :
    ((m.nextCategory).prevCategory).activeCategory = m.activeCategory ∧
    ((m.prevCategory).nextCategory).activeCategory = m.activeCategory ∧
    ∀ i (h : i < m.categories.length), m.activeCategory = m.categories.get ⟨i, h⟩ →
      (m.nextCategory).activeCategory =
        m.categories.getD ((i + 1) % m.categories.length) m.activeCategory ∧
      (m.prevCategory).activeCategory =
        m.categories.getD ((i + m.categories.length - 1) % m.categories.length)
          m.activeCategory := by
  rcases List.mem_iff_get.mp hmem with ⟨⟨i, h⟩, hget⟩
  have ha : m.activeCategory = m.categories.get ⟨i, h⟩ := hget.symm
  have hlen : 0 < m.categories.length := by omega
  refine ⟨?_, ?_, ?_⟩
  · show prevCatStr m.categories (nextCatStr m.categories m.activeCategory) = m.activeCategory
    rw [ha, nextCatStr_get m.categories hnd i h,
      prevCatStr_get m.categories hnd ((i + 1) % m.categories.length) (Nat.mod_lt _ hlen)]
    congr 1
    exact Fin.ext (next_prev_idx m.categories.length i h)
  · show nextCatStr m.categories (prevCatStr m.categories m.activeCategory) = m.activeCategory
    rw [ha, prevCatStr_get m.categories hnd i h,
      nextCatStr_get m.categories hnd ((i + m.categories.length - 1) % m.categories.length)
        (Nat.mod_lt _ hlen)]
    congr 1
    exact Fin.ext (prev_next_idx m.categories.length i h)
  · intro j hj haj
    constructor
    · show nextCatStr m.categories m.activeCategory =
        m.categories.getD ((j + 1) % m.categories.length) m.activeCategory
      rw [haj, nextCatStr_get m.categories hnd j hj,
        List.getD_eq_getElem _ _ (Nat.mod_lt _ (by omega))]
      simp [List.get_eq_getElem]
    · show prevCatStr m.categories m.activeCategory =
        m.categories.getD ((j + m.categories.length - 1) % m.categories.length) m.activeCategory
      rw [haj, prevCatStr_get m.categories hnd j hj,
        List.getD_eq_getElem _ _ (Nat.mod_lt _ (by omega))]
      simp [List.get_eq_getElem]

/-- Witness for the amended C8 on the tab list All, default, work. -/
theorem category_cycle_inverse_witness :
    ((({ categories := ["All", "default", "work"], activeCategory := "work",
         filterFocused := false, filterValue := "", bookmarks := [], allBookmarks := [],
         selectedIdx := 0, confirmDialog := ConfirmModel.new,
         showingDialog := false } : TuiModel).nextCategory).prevCategory).activeCategory =
      "work" :=
  (category_cycle_inverse
    { categories := ["All", "default", "work"], activeCategory := "work",
      filterFocused := false, filterValue := "", bookmarks := [], allBookmarks := [],
      selectedIdx := 0, confirmDialog := ConfirmModel.new, showingDialog := false }
    (by decide) (by decide)).1

/-- With the dialog branch inactive no key issues a delete command. -/
lemma update_no_dialog (m : TuiModel) (k : Key) (h : m.showingDialog = false) :
    (m.update k).2 = none := by
  by_cases hf : m.filterFocused
  all_goals cases k <;>
    simp only [TuiModel.update, h, Bool.false_eq_true, if_false, hf, if_true] <;>
    first
      | rfl
      | (cases m.bookmarks[m.selectedIdx]? <;> rfl)

/-- With the dialog branch active, a delete command is emitted exactly
when the dialog step resolves affirmatively with a bookmark attached. -/
lemma update_dialog_emit (m : TuiModel) (k : Key) (b : Bookmark)
    (hsd : m.showingDialog = true) :
    (m.update k).2 = some b ↔
      ((m.confirmDialog.update k).chosen = true ∧
        (m.confirmDialog.update k).result = true ∧
        (m.confirmDialog.update k).bookmark = some b) := by
  cases hc : (m.confirmDialog.update k).chosen <;>
    cases hr : (m.confirmDialog.update k).result <;>
    rcases hb2 : (m.confirmDialog.update k).bookmark with _ | b0 <;>
    simp [TuiModel.update, hsd, hc, hr, hb2]

/-- With the dialog branch active and a non-affirmative dialog step, no
delete command is emitted. -/
lemma update_dialog_noemit (m : TuiModel) (k : Key)
    (hsd : m.showingDialog = true)
    (hres : (m.confirmDialog.update k).result = false) :
    (m.update k).2 = none := by
  cases hc : (m.confirmDialog.update k).chosen <;>
    rcases hb2 : (m.confirmDialog.update k).bookmark with _ | b0 <;>
    simp [TuiModel.update, hsd, hc, hres, hb2]

/-- With the dialog branch active, a resolving dialog step closes it. -/
lemma update_dialog_closes (m : TuiModel) (k : Key)
    (hsd : m.showingDialog = true)
    (hch1 : (m.confirmDialog.update k).chosen = true) :
    ((m.update k).1).showingDialog = false := by
  cases hr : (m.confirmDialog.update k).result <;>
    rcases hb2 : (m.confirmDialog.update k).bookmark with _ | b0 <;>
    simp [TuiModel.update, hsd, hch1, hr, hb2]

/-- With the dialog branch active and an unresolved dialog step, only the
dialog state advances. -/
lemma update_dialog_open (m : TuiModel) (k : Key)
    (hsd : m.showingDialog = true)
    (hch1 : (m.confirmDialog.update k).chosen = false) :
    (m.update k).1 = { m with confirmDialog := m.confirmDialog.update k } := by
  simp [TuiModel.update, hsd, hch1]

/-- A step that emits no delete leaves the database untouched. -/
lemma driveStep_none (s : TuiModel × DB) (k : Key)
    (h : (s.1.update k).2 = none) : (driveStep s k).2 = s.2 := by
  unfold driveStep
  rcases hu : s.1.update k with ⟨m1, r⟩
  rw [hu] at h
  simp only at h
  subst h
  rfl

/-- A visible unresolved dialog stays visible, unresolved, and in range
under any key that does not resolve it. -/
lemma confirm_update_unresolved (mc : ConfirmModel) (k : Key)
    (hvis : mc.visible = true) (hsel : mc.selected ≤ 1)
    (hch2 : (mc.update k).chosen = false) :
    (mc.update k).visible = true ∧ (mc.update k).chosen = false ∧
      (mc.update k).selected ≤ 1 := by
  cases k <;> simp [ConfirmModel.update, hvis] at hch2 ⊢ <;> simp_all <;> omega

/-- The dialog well-formedness DialogInv is preserved by every update
step: the dialog is opened only through Show, which resets it to visible,
unresolved, and with the cursor on No. -/
lemma dialogInv_step (m : TuiModel) (k : Key) (hinv : DialogInv m) :
    DialogInv ((m.update k).1) := by
  by_cases hsd : m.showingDialog = true
  · obtain ⟨hvis, hch, hsel⟩ := hinv hsd
    by_cases hch1 : (m.confirmDialog.update k).chosen = true
    · intro h1
      rw [update_dialog_closes m k hsd hch1] at h1
      exact absurd h1 (by simp)
    · have hch2 : (m.confirmDialog.update k).chosen = false := by
        simpa using hch1
      rw [update_dialog_open m k hsd hch2]
      intro _
      exact confirm_update_unresolved m.confirmDialog k hvis hsel hch2
  · have h0 : m.showingDialog = false := by simpa using hsd
    by_cases hf : m.filterFocused
    · cases k <;> intro h1 <;> simp [TuiModel.update, h0, hf] at h1
    · cases k with
      | tab =>
        intro h1
        simp [TuiModel.update, h0, hf, TuiModel.nextCategory] at h1
      | shiftTab =>
        intro h1
        simp [TuiModel.update, h0, hf, TuiModel.prevCategory] at h1
      | x =>
        rcases hb : m.bookmarks[m.selectedIdx]? with _ | b
        · intro h1
          simp [TuiModel.update, h0, hf, hb] at h1
        · intro _
          simp [TuiModel.update, h0, hf, hb, ConfirmModel.show]
      | d =>
        rcases hb : m.bookmarks[m.selectedIdx]? with _ | b
        · intro h1
          simp [TuiModel.update, h0, hf, hb] at h1
        · intro _
          simp [TuiModel.update, h0, hf, hb, ConfirmModel.show]
      | _ =>
        intro h1
        simp [TuiModel.update, h0, hf] at h1

/-- C7: a delete command is issued only out of an active, well-formed
confirmation dialog, for exactly the bookmark the dialog was shown for,
and only on an affirmative resolution (the y key, or enter with the
cursor on Yes); every negative resolution (esc, q, n, or enter with the
cursor elsewhere) issues no delete, leaves the stored rows untouched, and
closes the dialog. -/
theorem delete_requires_confirmation (m : TuiModel) (db : DB) (k : Key)
    (hinv : DialogInv m) :
    (∀ b, (m.update k).2 = some b →
      m.showingDialog = true ∧ m.confirmDialog.bookmark = some b ∧
        (k = .y ∨ (k = .enter ∧ m.confirmDialog.selected = 1))) ∧
    (m.showingDialog = true →
      (k = .esc ∨ k = .q ∨ k = .n ∨ (k = .enter ∧ m.confirmDialog.selected ≠ 1)) →
      (m.update k).2 = none ∧ (driveStep (m, db) k).2 = db ∧
        ((m.update k).1).showingDialog = false) := by
  by_cases hsd : m.showingDialog = true
  · obtain ⟨hvis, hch, hsel⟩ := hinv hsd
    constructor
    · intro b hb
      rw [update_dialog_emit m k b hsd] at hb
      obtain ⟨hc1, hr1, hb1⟩ := hb
      refine ⟨hsd, ?_⟩
      cases k with
      | enter =>
        simp only [ConfirmModel.update, hvis, Bool.not_true, Bool.false_eq_true,
          if_false] at hr1 hb1
        exact ⟨hb1, Or.inr ⟨rfl, by simpa using hr1⟩⟩
      | y =>
        simp only [ConfirmModel.update, hvis, Bool.not_true, Bool.false_eq_true,
          if_false] at hb1
        exact ⟨hb1, Or.inl rfl⟩
      | esc => simp [ConfirmModel.update, hvis] at hr1
      | q => simp [ConfirmModel.update, hvis] at hr1
      | n => simp [ConfirmModel.update, hvis] at hr1
      | _ => simp [ConfirmModel.update, hvis, hch] at hc1
    · intro _ hneg
      have hres : (m.confirmDialog.update k).result = false := by
        rcases hneg with rfl | rfl | rfl | ⟨rfl, hs⟩
        · simp [ConfirmModel.update, hvis]
        · simp [ConfirmModel.update, hvis]
        · simp [ConfirmModel.update, hvis]
        · simp [ConfirmModel.update, hvis, hs]
      have hch1 : (m.confirmDialog.update k).chosen = true := by
        rcases hneg with rfl | rfl | rfl | ⟨rfl, hs⟩ <;> simp [ConfirmModel.update, hvis]
      have hn := update_dialog_noemit m k hsd hres
      exact ⟨hn, driveStep_none (m, db) k hn, update_dialog_closes m k hsd hch1⟩
  · have h0 : m.showingDialog = false := by simpa using hsd
    constructor
    · intro b hb
      rw [update_no_dialog m k h0] at hb
      exact absurd hb (by simp)
    · intro h1 _
      exact absurd h1 (by simp [h0])

/-- Witness state for the C7 theorem: an open confirmation dialog over a
one-row database. -/
def c7Model : TuiModel :=
  { categories := ["All"], activeCategory := "All", filterFocused := false,
    filterValue := "", bookmarks := [⟨1, "/a", 5, "c", none⟩],
    allBookmarks := [⟨1, "/a", 5, "c", none⟩], selectedIdx := 0,
    confirmDialog := ConfirmModel.new.show ⟨1, "/a", 5, "c", none⟩,
    showingDialog := true }

/-- Witness database for the C7 theorem. -/
def c7Db : DB := ⟨[⟨1, "/a", 5, "c", none⟩], 2, 9⟩

/-- Witness for C7: the open dialog resolved with the n key deletes
nothing, keeps the stored rows, and closes the dialog. -/
theorem delete_requires_confirmation_witness :
    (c7Model.update .n).2 = none ∧ (driveStep (c7Model, c7Db) .n).2 = c7Db ∧
      ((c7Model.update .n).1).showingDialog = false :=
  (delete_requires_confirmation c7Model c7Db .n
    (fun _ => by simp [c7Model, ConfirmModel.new, ConfirmModel.show])).2 rfl
    (Or.inr (Or.inr (Or.inl rfl)))

/-- shownModel is the state the Delete key produces for a selected
bookmark b: the dialog branch active and the dialog freshly shown for b. -/
def shownModel (m : TuiModel) (b : Bookmark) : TuiModel :=
  { m with showingDialog := true, confirmDialog := m.confirmDialog.show b }

/-- C9: immediately after Show the dialog cursor is on No, so enter
resolves the dialog negatively: no delete command is issued, the stored
rows are untouched, the dialog closes, and the recorded result is a
non-confirmation. -/
theorem dialog_defaults_to_no (m : TuiModel) (b : Bookmark) (db : DB) :
    (shownModel m b).confirmDialog.selected = 0 ∧
    ((shownModel m b).update .enter).2 = none ∧
    (((shownModel m b).update .enter).1).showingDialog = false ∧
    (((shownModel m b).update .enter).1).confirmDialog.chosen = true ∧
    (((shownModel m b).update .enter).1).confirmDialog.result = false ∧
    (driveStep (shownModel m b, db) .enter).2 = db := by
  refine ⟨rfl, ?_, ?_, ?_, ?_, ?_⟩ <;>
    simp [shownModel, TuiModel.update, ConfirmModel.update, ConfirmModel.show, driveStep]

end BookmarkManager
